import Mathlib

/-!
Shallow embedding of the command-line orchestration core of
`rvpacker-txt-rs` (`src/main.rs`): engine resolution, game-type
classification, configuration precedence between CLI flags and the
persisted metadata record, the read/write/purge dispatch traces, the
asset key-resolution and extension dispatch, and the force-mode
confirmation gate with its elapsed-time accounting.  Pure functions of
the source are translated into Lean functions; the effectful command
arms are translated into functions producing an explicit trace of
file-system / external-service events together with a result.
-/

namespace Rvpacker

/-- `EngineType` from `rvpacker_lib::types`, as used by `main.rs`. -/
inductive EngineType where
  | New
  | VXAce
  | VX
  | XP
  deriving DecidableEq, Repr

/-- `GameType` from `rvpacker_lib::types`: result of title classification. -/
inductive GameType where
  | None
  | Termina
  | LisaRPG
  deriving DecidableEq, Repr

/-- `ReadMode` (CLI enum, transmuted 1:1 onto the library enum). -/
inductive ReadMode where
  | Default
  | Append
  | Force
  deriving DecidableEq, Repr

/-- `DuplicateMode` (CLI enum, transmuted 1:1 onto the library enum). -/
inductive DuplicateMode where
  | Allow
  | Remove
  deriving DecidableEq, Repr

/-- The `Metadata` struct of `main.rs`: the persisted per-project record
`{romanize, disable_custom_processing, trim, duplicate_mode}`. -/
structure Metadata where
  romanize : Bool
  disable_custom_processing : Bool
  trim : Bool
  duplicate_mode : DuplicateMode
  deriving DecidableEq, Repr

/-- The flags of the `SharedArgs` clap struct that take part in
configuration resolution (`read_mode`, `trim`, `romanize`,
`disable_custom_processing`, `duplicate_mode`). -/
structure SharedArgs where
  read_mode : ReadMode
  trim : Bool
  romanize : Bool
  disable_custom_processing : Bool
  duplicate_mode : DuplicateMode
  deriving DecidableEq, Repr

/-- The `ReadArgs` clap struct: `silent`, `ignore` and the shared flags. -/
structure ReadArgs where
  silent : Bool
  ignore : Bool
  shared : SharedArgs
  deriving DecidableEq, Repr

/-! ## Substring containment (`str::contains` on the lowercased title) -/

/-- Boolean list-prefix test used to express `str::contains`. -/
def isPrefixList : List Char → List Char → Bool
  | [], _ => true
  | _ :: _, [] => false
  | a :: as, b :: bs => a == b && isPrefixList as bs

/-- Boolean list-infix test: `p` occurs contiguously inside the second list. -/
def isInfixList (p : List Char) : List Char → Bool
  | [] => isPrefixList p []
  | b :: bs => isPrefixList p (b :: bs) || isInfixList p bs

/-- `s.contains(pat)` of Rust `str`, on Lean strings. -/
def strContains (s pat : String) : Bool :=
  isInfixList pat.data s.data

/-- Lowercase one character (ASCII range; the classifier's patterns are
ASCII). -/
def lowerChar (c : Char) : Char :=
  if 65 ≤ c.toNat ∧ c.toNat ≤ 90 then Char.ofNat (c.toNat + 32) else c

/-- `str::to_lowercase`, characterwise. -/
def strToLower (s : String) : String :=
  String.mk (s.data.map lowerChar)

/-! ## Game-type classification (`get_game_type` in `main.rs`) -/

/-- The pure value computed by `get_game_type`: if custom processing is
disabled, `GameType::None`; otherwise the lowercased title is tested for
the substring `"termina"`, then `"lisa"`. -/
def gameTypeOf (game_title : String) (disable_custom_processing : Bool) :
    GameType :=
  if disable_custom_processing then
    GameType.None
  else
    let lowercased := strToLower game_title
    if strContains lowercased "termina" then
      GameType.Termina
    else if strContains lowercased "lisa" then
      GameType.LisaRPG
    else
      GameType.None

/-- `get_game_type` itself returns `Result<GameType>`; it never errors. -/
def get_game_type (game_title : String)
    (disable_custom_processing : Bool) : Except String GameType :=
  Except.ok (gameTypeOf game_title disable_custom_processing)

/-! ## Configuration resolution for the read command

In `Command::Read` the local variables `romanize`, `trim`,
`duplicate_mode`, `disable_custom_processing` start from the CLI flags;
when the read mode is `Append` and a persisted metadata record exists,
the destructuring assignment `Metadata { romanize, trim, duplicate_mode,
disable_custom_processing } = metadata` replaces all four. -/

/-- The four configuration values of `Command::Read` after the
append-mode metadata override, as a `Metadata` record. -/
def resolveReadConfig (args : SharedArgs) (meta : Option Metadata) :
    Metadata :=
  let cli : Metadata :=
    { romanize := args.romanize
      disable_custom_processing := args.disable_custom_processing
      trim := args.trim
      duplicate_mode := args.duplicate_mode }
  if args.read_mode = ReadMode.Append then
    match meta with
    | some m =>
        { romanize := m.romanize
          trim := m.trim
          duplicate_mode := m.duplicate_mode
          disable_custom_processing := m.disable_custom_processing }
    | none => cli
  else cli

/-- Configuration resolution of `Command::Write` and `Command::Purge`:
there the destructuring override applies whenever a persisted metadata
record exists, independent of any mode. -/
def resolveWpConfig (args : SharedArgs) (meta : Option Metadata) :
    Metadata :=
  match meta with
  | some m =>
      { romanize := m.romanize
        trim := m.trim
        duplicate_mode := m.duplicate_mode
        disable_custom_processing := m.disable_custom_processing }
  | none =>
      { romanize := args.romanize
        disable_custom_processing := args.disable_custom_processing
        trim := args.trim
        duplicate_mode := args.duplicate_mode }

/-! ## Engine resolution

`main` probes a literal four-element array of
`(EngineType, system_file_path, Option archive_path)` tuples with
`find_map`; an entry is rejected when its system file does not exist and
its archive path is none-or-nonexistent.  Paths are modelled as lists of
components, the file system as a boolean predicate on paths. -/

/-- A file-system path, as a list of components. -/
abbrev FsPath := List String

/-- The literal candidate array probed by `main`, in source order. -/
def engineCandidates (source_path input_dir : FsPath) :
    List (EngineType × FsPath × Option FsPath) :=
  [ (EngineType.New, source_path ++ ["System.json"], none),
    (EngineType.VXAce, source_path ++ ["System.rvdata2"],
      some (input_dir ++ ["Game.rgss3a"])),
    (EngineType.VX, source_path ++ ["System.rvdata"],
      some (input_dir ++ ["Game.rgss2a"])),
    (EngineType.XP, source_path ++ ["System.rxdata"],
      some (input_dir ++ ["Game.rgssad"])) ]

/-- The positive form of the source's rejection test: an entry matches
when its system file exists or its archive path is present and exists. -/
def entryMatches (fs : FsPath → Bool)
    (e : EngineType × FsPath × Option FsPath) : Bool :=
  fs e.2.1 || (match e.2.2 with
    | none => false
    | some a => fs a)

/-- The `find_map` of `main`: each entry returns `none` exactly when its
system file does not exist and its archive is none-or-nonexistent. -/
def resolveEngine (fs : FsPath → Bool) (source_path input_dir : FsPath) :
    Option (EngineType × FsPath × Option FsPath) :=
  (engineCandidates source_path input_dir).findSome? fun e =>
    if !fs e.2.1 && (match e.2.2 with
        | none => true
        | some a => !fs a) then
      none
    else
      some e

/-! ## The read command as an event trace

`Command::Read` is modelled as a function from the CLI arguments, the
extracted game title and a world record (what exists on disk, the stdin
line, whether the external calls succeed) to the ordered list of
effectful events it performs together with its result.  The event order
mirrors the source: append-mode metadata override (pure), force-mode
confirmation prompt, metadata write / ignore-file check, archive
decryption, external read. -/

/-- The effectful events of a read run, in the order performed. -/
inductive ReadEvent where
  | promptWarning
  | createTranslationDir
  | writeMetadata (m : Metadata)
  | decryptArchive
  | writeUnpackedFiles
  | externalRead (cfg : Metadata) (gt : GameType)
  deriving DecidableEq, Repr

/-- Result of a read run. -/
inductive ReadResult where
  | ok
  | userAbort
  | err (msg : String)
  deriving DecidableEq, Repr

/-- The on-disk and interactive environment of a read run. -/
structure ReadWorld where
  metadataFileExists : Bool
  persisted : Metadata
  ignoreFileExists : Bool
  archivePathSome : Bool
  systemFileExists : Bool
  archiveDecryptOk : Bool
  stdinLine : String
  externalReadOk : Bool
  deriving DecidableEq, Repr

/-- Rust `str::trim_end`: drop trailing whitespace. -/
def rtrim (s : String) : String :=
  String.mk (s.data.reverse.dropWhile Char.isWhitespace).reverse

/-- The result of `parse_metadata` for a given world: `none` when the
metadata file does not exist, the parsed record otherwise. -/
def metaOf (w : ReadWorld) : Option Metadata :=
  if w.metadataFileExists then some w.persisted else none

/-- The archive-unpack step and the external read call (the tail of the
`Command::Read` arm after the metadata write / ignore check). -/
def readDispatch (cfg : Metadata) (gt : GameType) (w : ReadWorld)
    (evs : List ReadEvent) : List ReadEvent × ReadResult :=
  if w.archivePathSome && !w.systemFileExists then
    if w.archiveDecryptOk then
      (evs ++ [ReadEvent.decryptArchive, ReadEvent.writeUnpackedFiles,
        ReadEvent.externalRead cfg gt],
       if w.externalReadOk then ReadResult.ok
       else ReadResult.err "read failed")
    else
      (evs ++ [ReadEvent.decryptArchive],
       ReadResult.err "archive decryption failed")
  else
    (evs ++ [ReadEvent.externalRead cfg gt],
     if w.externalReadOk then ReadResult.ok
     else ReadResult.err "read failed")

/-- The metadata write (non-append) or ignore-file check (append), then
the dispatch tail. -/
def readAfterPrompt (a : ReadArgs) (cfg : Metadata) (gt : GameType)
    (w : ReadWorld) (evs : List ReadEvent) : List ReadEvent × ReadResult :=
  if !(a.shared.read_mode = ReadMode.Append) then
    readDispatch cfg gt w
      (evs ++ [ReadEvent.createTranslationDir, ReadEvent.writeMetadata cfg])
  else if a.ignore && !w.ignoreFileExists then
    (evs, ReadResult.err
      "`.rvpacker-ignore` file does not exist. Aborting execution.")
  else
    readDispatch cfg gt w evs

/-- The whole `Command::Read` arm: configuration resolution, game-type
classification (from the CLI disable flag, before the override), the
force-mode confirmation gate, then `readAfterPrompt`. -/
def readRun (a : ReadArgs) (title : String) (w : ReadWorld) :
    List ReadEvent × ReadResult :=
  let gt := gameTypeOf title a.shared.disable_custom_processing
  let cfg := resolveReadConfig a.shared (metaOf w)
  if a.shared.read_mode = ReadMode.Force && !a.silent then
    if !(rtrim w.stdinLine = "Y") then
      ([ReadEvent.promptWarning], ReadResult.userAbort)
    else
      readAfterPrompt a cfg gt w [ReadEvent.promptWarning]
  else
    readAfterPrompt a cfg gt w []

/-! ## The write and purge commands as event traces -/

/-- The external-service events of the write and purge arms. -/
inductive WpEvent where
  | externalWrite (cfg : Metadata) (gt : GameType)
  | externalPurge (cfg : Metadata) (gt : GameType) (create_ignore : Bool)
  deriving DecidableEq, Repr

/-- Result of a write or purge run. -/
inductive WpResult where
  | ok
  | err (msg : String)
  deriving DecidableEq, Repr

/-- The on-disk environment of a write or purge run. -/
structure WpWorld where
  translationDirExists : Bool
  metadataFileExists : Bool
  persisted : Metadata
  externalOk : Bool
  deriving DecidableEq, Repr

/-- `Command::Write`: bails out if the translation directory is absent,
otherwise resolves the configuration (metadata overrides whenever
present), classifies the title with the resolved disable flag, and
invokes the external writer. -/
def writeRun (a : SharedArgs) (title : String) (w : WpWorld) :
    List WpEvent × WpResult :=
  if !w.translationDirExists then
    ([], WpResult.err
      "`translation` directory in the input directory does not exist.")
  else
    let cfg := resolveWpConfig a
      (if w.metadataFileExists then some w.persisted else none)
    let gt := gameTypeOf title cfg.disable_custom_processing
    ([WpEvent.externalWrite cfg gt],
     if w.externalOk then WpResult.ok else WpResult.err "write failed")

/-- `Command::Purge`: the source performs no translation-directory
existence check; it resolves the configuration, classifies the title
with the resolved disable flag, and invokes the external purger. -/
def purgeRun (a : SharedArgs) (create_ignore : Bool) (title : String)
    (w : WpWorld) : List WpEvent × WpResult :=
  let cfg := resolveWpConfig a
    (if w.metadataFileExists then some w.persisted else none)
  let gt := gameTypeOf title cfg.disable_custom_processing
  ([WpEvent.externalPurge cfg gt create_ignore],
   if w.externalOk then WpResult.ok else WpResult.err "purge failed")

/-! ## Asset key resolution and extension dispatch -/

/-- The `AssetSubcommand` clap enum. -/
inductive AssetSubcommand where
  | Decrypt
  | Encrypt
  | ExtractKey
  deriving DecidableEq, Repr

/-- Which branch of the key-resolution `if` runs, and with what. -/
inductive KeyResolution where
  | defaultKey
  | unwrapSupplied (key : Option String)
  deriving DecidableEq, Repr

/-- The key-resolution conditional of `Command::Asset`:
`if key.is_none() && args.subcommand.is_encrypt()` the built-in default
key is used; in every other case the supplied key is passed through
`unwrap_unchecked` (whose `None` case is undefined behavior). -/
def resolveAssetKey (key : Option String) (sub : AssetSubcommand) :
    KeyResolution :=
  if key = none && sub = AssetSubcommand.Encrypt then
    KeyResolution.defaultKey
  else
    KeyResolution.unwrapSupplied key

/-- The source-extension set of the decrypt/encrypt operations
(the `exts` slice of the asset arm). -/
def assetExts (sub : AssetSubcommand) : List String :=
  if sub = AssetSubcommand.Encrypt then
    ["png", "ogg", "m4a"]
  else
    ["rpgmvp", "rpgmvo", "rpgmvm", "ogg_", "png_", "m4a_"]

/-- Outcome of handling one candidate file in the asset arm. -/
inductive SingleOutcome where
  | processed
  | skipped
  | hardError
  deriving DecidableEq, Repr

/-- The single-explicit-file branch of the asset arm: the file is
processed when its extension is in the operation's set, and otherwise
the branch simply falls through (no error is raised). -/
def singleFileOutcome (sub : AssetSubcommand) (extension : String) :
    SingleOutcome :=
  if (assetExts sub).contains extension then
    SingleOutcome.processed
  else
    SingleOutcome.skipped

/-- The directory branch of the asset arm: each entry is a filename with
an optional extension; entries without an extension are skipped
(`continue`), entries whose extension is outside the set are skipped,
and the rest are processed.  Returns the filenames processed, in
order. -/
def dirProcessed (sub : AssetSubcommand)
    (entries : List (String × Option String)) : List String :=
  entries.foldr
    (fun e acc =>
      match e.2 with
      | none => acc
      | some extension =>
          if (assetExts sub).contains extension then e.1 :: acc else acc)
    []

/-! ## Elapsed-time accounting of the force-mode prompt

`main` records `start_time` at program start; in a non-silent force
read, after the confirmation is accepted it executes
`start_time -= start.elapsed()` where `start` was taken when the prompt
began, and finally reports `start_time.elapsed()`.  Instants are
modelled as integers. -/

/-- The elapsed seconds reported by a confirmed non-silent force read:
program start `t0`, prompt shown at `tPromptStart`, confirmation read at
`tPromptEnd`, report printed at `tEnd`. -/
def forceReportedElapsed (t0 tPromptStart tPromptEnd tEnd : Int) : Int :=
  let waited := tPromptEnd - tPromptStart
  let start_time := t0 - waited
  tEnd - start_time

/-- The elapsed seconds the spec prescribes for the same run: the total
wall-clock time minus the time blocked on the prompt. -/
def specElapsedExcludingPrompt (t0 tPromptStart tPromptEnd tEnd : Int) :
    Int :=
  (tEnd - t0) - (tPromptEnd - tPromptStart)

/-! ## RangeSpec parser (spec-modelled)

The RangeSpec parser itself is not part of `src/main.rs`; only the spec
describes it.  It is modelled here from the spec's words. -/

/-- Split a character list at every occurrence of `c`; the accumulator
holds the current piece reversed. -/
def splitCharAux (c : Char) : List Char → List Char → List (List Char)
  | [], acc => [acc.reverse]
  | x :: xs, acc =>
      if x = c then acc.reverse :: splitCharAux c xs []
      else splitCharAux c xs (x :: acc)

/-- Split a character list on a separator character. -/
def splitChar (c : Char) (l : List Char) : List (List Char) :=
  splitCharAux c l []

/-- Drop leading and trailing whitespace from a character list. -/
def trimChars (l : List Char) : List Char :=
  ((l.dropWhile Char.isWhitespace).reverse.dropWhile
    Char.isWhitespace).reverse

/-- Value of one decimal digit character. -/
def digitVal (c : Char) : Nat := c.toNat - 48

/-- Decimal value of a digit list (left fold). -/
def digitsToNat (l : List Char) : Nat :=
  l.foldl (fun a c => a * 10 + digitVal c) 0

/-- Parse a nonempty all-digit character list as a non-negative
integer; anything else is rejected. -/
def parseDecimal (l : List Char) : Option Nat :=
  if l ≠ [] ∧ l.all Char.isDigit then some (digitsToNat l) else none

/-- The inclusive range `[a, b]` as a list. -/
def rangeListIncl (a b : Nat) : List Nat :=
  List.range' a (b + 1 - a)

/-- Error message for a reversed range, carrying the offending token
verbatim. -/
def reversedRangeErr (raw : List Char) : String :=
  String.mk (("Range start is greater than range end in token: ").data
    ++ raw)

/-- Error message for a non-numeric token, carrying the offending token
verbatim. -/
def badTokenErr (raw : List Char) : String :=
  String.mk (("Invalid range token: ").data ++ raw)

/-- Modelled from the spec: parse one comma-separated token of the
RangeSpec single-list syntax (the parser itself is absent from the
source tree).  Whitespace around the token is ignored, an empty token
yields nothing, a bare non-negative integer yields itself, an inclusive
`start-end` range is flattened, a reversed range is a hard error naming
the token verbatim, and a non-numeric token is a hard error naming the
token. -/
def parseTok (raw : List Char) : Except String (List Nat) :=
  let t := trimChars raw
  if t = [] then Except.ok []
  else
    match splitChar '-' t with
    | [s] =>
        match parseDecimal s with
        | some n => Except.ok [n]
        | none => Except.error (badTokenErr raw)
    | [sa, sb] =>
        match parseDecimal sa, parseDecimal sb with
        | some a, some b =>
            if b < a then Except.error (reversedRangeErr raw)
            else Except.ok (rangeListIncl a b)
        | _, _ => Except.error (badTokenErr raw)
    | _ => Except.error (badTokenErr raw)

/-- Modelled from the spec: parse a token list in appearance order,
concatenating the flattened values; the first failing token aborts with
its error (never partially populating). -/
def parseTokens : List (List Char) → Except String (List Nat)
  | [] => Except.ok []
  | t :: ts =>
      match parseTok t with
      | Except.error e => Except.error e
      | Except.ok v =>
          match parseTokens ts with
          | Except.error e => Except.error e
          | Except.ok rest => Except.ok (v ++ rest)

/-- Modelled from the spec: the RangeSpec single-list parser — split the
input on commas and parse the tokens in order. -/
def parseRangeList (s : String) : Except String (List Nat) :=
  parseTokens (splitChar ',' s.data)

/-! ## Trace measurements -/

/-- The metadata records written strictly before the first external read
call of a trace (all of them, if no external read occurs). -/
def metadataWritesBeforeFirstRead : List ReadEvent → List Metadata
  | [] => []
  | ReadEvent.externalRead _ _ :: _ => []
  | ReadEvent.writeMetadata m :: rest =>
      m :: metadataWritesBeforeFirstRead rest
  | _ :: rest => metadataWritesBeforeFirstRead rest

/-- How many metadata writes a trace performs in total. -/
def metadataWriteCount : List ReadEvent → Nat
  | [] => 0
  | ReadEvent.writeMetadata _ :: rest => 1 + metadataWriteCount rest
  | _ :: rest => metadataWriteCount rest

/-- The directory-entry filter of the asset arm: an entry participates
when it has an extension and that extension is in the operation's set. -/
def entryInExts (sub : AssetSubcommand) (e : String × Option String) :
    Bool :=
  match e.2 with
  | none => false
  | some extension => (assetExts sub).contains extension

/-! # Theorems -/

/-- C7: Game-type classification is a pure function of the title and the
disable flag: with the flag set the result is `None` for every title;
otherwise the lowercased title is tested first for `"termina"`
(`Termina`), then for `"lisa"` (`LisaRPG`), else `None`. -/
theorem game_type_classification (title : String) (d : Bool) :
    (d = true → get_game_type title d = Except.ok GameType.None)
    ∧ (d = false → strContains (strToLower title) "termina" = true →
        get_game_type title d = Except.ok GameType.Termina)
    ∧ (d = false → strContains (strToLower title) "termina" = false →
        strContains (strToLower title) "lisa" = true →
        get_game_type title d = Except.ok GameType.LisaRPG)
    ∧ (d = false → strContains (strToLower title) "termina" = false →
        strContains (strToLower title) "lisa" = false →
        get_game_type title d = Except.ok GameType.None) := by
  refine ⟨fun h => ?_, fun h ht => ?_, fun h ht hl => ?_,
    fun h ht hl => ?_⟩
  · simp [get_game_type, gameTypeOf, h]
  · simp [get_game_type, gameTypeOf, h, ht]
  · simp [get_game_type, gameTypeOf, h, ht, hl]
  · simp [get_game_type, gameTypeOf, h, ht, hl]

/-- Witness for C7 at concrete titles. -/
theorem game_type_classification_witness :
    get_game_type "Fear & Hunger 2: TERMINA" false
        = Except.ok GameType.Termina
    ∧ get_game_type "LISA: The Painful" true
        = Except.ok GameType.None :=
  ⟨(game_type_classification "Fear & Hunger 2: TERMINA" false).2.1 rfl
      (by decide),
   (game_type_classification "LISA: The Painful" true).1 rfl⟩

/-- Every external-read event of a dispatch tail carries the dispatched
configuration and game type, unless it was already in the event prefix. -/
theorem mem_externalRead_readDispatch {cfg gt cfg' gt' : _} {w : ReadWorld}
    {evs : List ReadEvent}
    (h : ReadEvent.externalRead cfg' gt' ∈ (readDispatch cfg gt w evs).1) :
    ReadEvent.externalRead cfg' gt' ∈ evs ∨ (cfg' = cfg ∧ gt' = gt) := by
  unfold readDispatch at h
  split at h
  · split at h
    · rcases List.mem_append.mp h with h | h
      · exact Or.inl h
      · simp at h
        exact Or.inr h
    · rcases List.mem_append.mp h with h | h
      · exact Or.inl h
      · simp at h
  · rcases List.mem_append.mp h with h | h
    · exact Or.inl h
    · simp at h
      exact Or.inr h

/-- As `mem_externalRead_readDispatch`, one layer up. -/
theorem mem_externalRead_readAfterPrompt {a : ReadArgs}
    {cfg gt cfg' gt' : _} {w : ReadWorld} {evs : List ReadEvent}
    (h : ReadEvent.externalRead cfg' gt'
      ∈ (readAfterPrompt a cfg gt w evs).1) :
    ReadEvent.externalRead cfg' gt' ∈ evs ∨ (cfg' = cfg ∧ gt' = gt) := by
  unfold readAfterPrompt at h
  split at h
  · rcases mem_externalRead_readDispatch h with h | h
    · rcases List.mem_append.mp h with h | h
      · exact Or.inl h
      · simp at h
    · exact Or.inr h
  · split at h
    · exact Or.inl h
    · exact mem_externalRead_readDispatch h

/-- Every external-read event of a read run carries the resolved
configuration and the game type classified from the CLI disable flag. -/
theorem mem_externalRead_readRun {a : ReadArgs} {title : String}
    {w : ReadWorld} {cfg' gt' : _}
    (h : ReadEvent.externalRead cfg' gt' ∈ (readRun a title w).1) :
    cfg' = resolveReadConfig a.shared (metaOf w)
    ∧ gt' = gameTypeOf title a.shared.disable_custom_processing := by
  simp only [readRun] at h
  split at h
  · split at h
    · simp at h
    · rcases mem_externalRead_readAfterPrompt h with h | h
      · simp at h
      · exact h
  · rcases mem_externalRead_readAfterPrompt h with h | h
    · simp at h
    · exact h

/-- C1: in an append-mode read with a persisted metadata record, the
resolved romanize/trim/duplicate-mode/disable-custom-processing values —
the configuration carried by the external read dispatch — equal the
persisted record's fields, for every combination of CLI flags. -/
theorem read_append_config_overridden_by_metadata
    (a : ReadArgs) (m : Metadata) (title : String) (w : ReadWorld)
    (hm : a.shared.read_mode = ReadMode.Append)
    (hw : w.metadataFileExists = true) (hp : w.persisted = m) :
    resolveReadConfig a.shared (some m) = m
    ∧ ∀ cfg gt,
        ReadEvent.externalRead cfg gt ∈ (readRun a title w).1 → cfg = m := by
  have hres : resolveReadConfig a.shared (some m) = m := by
    simp [resolveReadConfig, hm]
  refine ⟨hres, fun cfg gt hmem => ?_⟩
  have hc := (mem_externalRead_readRun hmem).1
  rw [hc]
  simp [metaOf, hw, hp, hres]

/-- Witness for C1. -/
theorem read_append_config_overridden_by_metadata_witness :
    resolveReadConfig
        ⟨ReadMode.Append, true, true, true, DuplicateMode.Allow⟩
        (some ⟨false, false, false, DuplicateMode.Remove⟩)
      = ⟨false, false, false, DuplicateMode.Remove⟩ :=
  (read_append_config_overridden_by_metadata
    ⟨false, false, ⟨ReadMode.Append, true, true, true, DuplicateMode.Allow⟩⟩
    ⟨false, false, false, DuplicateMode.Remove⟩ "T"
    ⟨true, ⟨false, false, false, DuplicateMode.Remove⟩, true, false, false,
      true, "", true⟩
    rfl rfl rfl).1

/-- C10: in an append-mode read with a persisted metadata record whose
disable-custom-processing flag differs from the CLI flag, the game type
handed to the external reader is classified from the CLI flag (it is
computed before the metadata override), not from the persisted one; the
two classifications genuinely differ on a title such as `"LISA"`. -/
theorem read_append_game_type_uses_cli_flag
    (a : ReadArgs) (title : String) (w : ReadWorld)
    (_hw : w.metadataFileExists = true)
    (_hne : w.persisted.disable_custom_processing
      ≠ a.shared.disable_custom_processing) :
    (∀ cfg gt, ReadEvent.externalRead cfg gt ∈ (readRun a title w).1 →
        gt = gameTypeOf title a.shared.disable_custom_processing)
    ∧ gameTypeOf "LISA" false ≠ gameTypeOf "LISA" true := by
  refine ⟨fun cfg gt hmem => (mem_externalRead_readRun hmem).2, ?_⟩
  decide

/-- Witness for C10: a concrete append-mode run with persisted
`disableCustomProcessing = true` and the CLI flag unset dispatches the
game type classified from the CLI flag (`LisaRPG`, not `None`). -/
theorem read_append_game_type_uses_cli_flag_witness :
    GameType.LisaRPG = gameTypeOf "LISA" false :=
  (read_append_game_type_uses_cli_flag
    ⟨false, false,
      ⟨ReadMode.Append, false, false, false, DuplicateMode.Remove⟩⟩
    "LISA"
    ⟨true, ⟨false, true, false, DuplicateMode.Remove⟩, true, false, false,
      true, "", true⟩
    rfl (by decide)).1
    ⟨false, true, false, DuplicateMode.Remove⟩ GameType.LisaRPG (by decide)

/-- C5 (code bug): the asset key-resolution conditional only routes
`(absent key, encrypt)` to the built-in default key; for the decrypt
operation with an absent key it executes the branch that unchecked-
unwraps the supplied key with `None` — that case is reachable, contrary
to the claim.  The encrypt fallback itself behaves as claimed. -/
theorem decrypt_absent_key_reaches_unchecked_unwrap :
    resolveAssetKey none AssetSubcommand.Decrypt
        = KeyResolution.unwrapSupplied none
    ∧ resolveAssetKey none AssetSubcommand.ExtractKey
        = KeyResolution.unwrapSupplied none
    ∧ resolveAssetKey none AssetSubcommand.Encrypt
        = KeyResolution.defaultKey := by
  refine ⟨rfl, rfl, rfl⟩

/-- C6 counterexample: `asset decrypt --file foo.txt` — a single
explicit target file whose extension is outside the decrypt source set —
is silently skipped by the single-file branch, not a hard error. -/
theorem single_file_foreign_extension_skipped_cex :
    singleFileOutcome AssetSubcommand.Decrypt "txt" = SingleOutcome.skipped
    ∧ singleFileOutcome AssetSubcommand.Decrypt "txt"
        ≠ SingleOutcome.hardError := by
  refine ⟨rfl, by decide⟩

/-- C6 amended: a file whose extension is outside the operation's
source-extension set is silently skipped in both modes — the single-file
branch falls through without error, and the directory branch processes
exactly the entries whose extension is in the set. -/
theorem asset_foreign_extension_skipped (sub : AssetSubcommand)
    (extension : String) (entries : List (String × Option String))
    (h : (assetExts sub).contains extension = false) :
    singleFileOutcome sub extension = SingleOutcome.skipped
    ∧ dirProcessed sub entries
        = (entries.filter (entryInExts sub)).map Prod.fst := by
  constructor
  · unfold singleFileOutcome
    rw [h]
    rfl
  · induction entries with
    | nil => rfl
    | cons e rest ih =>
        rcases e with ⟨name, ext?⟩
        rcases ext? with _ | ext
        · have hstep :
              dirProcessed sub ((name, none) :: rest)
                = dirProcessed sub rest := rfl
          rw [hstep, List.filter_cons]
          simpa [entryInExts] using ih
        · have hstep :
              dirProcessed sub ((name, some ext) :: rest)
                = if (assetExts sub).contains ext then
                    name :: dirProcessed sub rest
                  else dirProcessed sub rest := rfl
          rw [hstep, List.filter_cons]
          by_cases hm : ext ∈ assetExts sub <;> simp [entryInExts, hm, ih]

/-- Witness for C6's amended theorem. -/
theorem asset_foreign_extension_skipped_witness :
    singleFileOutcome AssetSubcommand.Encrypt "txt" = SingleOutcome.skipped
    ∧ dirProcessed AssetSubcommand.Encrypt
        [("a.png", some "png"), ("b.txt", some "txt"), ("c", none)]
      = ([("a.png", some "png"), ("b.txt", some "txt"), ("c", none)].filter
          (entryInExts AssetSubcommand.Encrypt)).map Prod.fst :=
  asset_foreign_extension_skipped AssetSubcommand.Encrypt "txt"
    [("a.png", some "png"), ("b.txt", some "txt"), ("c", none)] (by decide)

/-- C4 counterexample: a purge invocation against a world whose
translation directory is absent still dispatches to the external purge
service and reports success — no hard error occurs. -/
theorem purge_dispatches_without_translation_dir_cex :
    purgeRun ⟨ReadMode.Default, false, false, false, DuplicateMode.Remove⟩
        false "T"
        ⟨false, false, ⟨false, false, false, DuplicateMode.Remove⟩, true⟩
      = ([WpEvent.externalPurge
            ⟨false, false, false, DuplicateMode.Remove⟩ GameType.None false],
         WpResult.ok) := rfl

/-- C4 amended: only the write operation requires the translation
directory to exist — when it is absent, write fails with a hard error
and performs no external call; purge performs no such check and always
dispatches to the external purge service. -/
theorem write_requires_translation_dir_purge_does_not
    (a : SharedArgs) (create_ignore : Bool) (title : String) (w : WpWorld)
    (h : w.translationDirExists = false) :
    writeRun a title w
        = ([], WpResult.err
            "`translation` directory in the input directory does not exist.")
    ∧ (purgeRun a create_ignore title w).1
        = [WpEvent.externalPurge
            (resolveWpConfig a
              (if w.metadataFileExists then some w.persisted else none))
            (gameTypeOf title
              (resolveWpConfig a
                (if w.metadataFileExists then some w.persisted
                 else none)).disable_custom_processing)
            create_ignore] := by
  constructor
  · simp [writeRun, h]
  · rfl

/-- Witness for C4's amended theorem. -/
theorem write_requires_translation_dir_purge_does_not_witness :
    writeRun ⟨ReadMode.Default, false, false, false, DuplicateMode.Remove⟩
        "T" ⟨false, false, ⟨false, false, false, DuplicateMode.Remove⟩, true⟩
      = ([], WpResult.err
          "`translation` directory in the input directory does not exist.")
    ∧ (purgeRun ⟨ReadMode.Default, false, false, false, DuplicateMode.Remove⟩
        true "T"
        ⟨false, false, ⟨false, false, false, DuplicateMode.Remove⟩, true⟩).1
      = [WpEvent.externalPurge
          (resolveWpConfig
            ⟨ReadMode.Default, false, false, false, DuplicateMode.Remove⟩
            (if (false : Bool) then
              some ⟨false, false, false, DuplicateMode.Remove⟩ else none))
          (gameTypeOf "T"
            (resolveWpConfig
              ⟨ReadMode.Default, false, false, false, DuplicateMode.Remove⟩
              (if (false : Bool) then
                some ⟨false, false, false, DuplicateMode.Remove⟩
               else none)).disable_custom_processing)
          true] :=
  write_requires_translation_dir_purge_does_not
    ⟨ReadMode.Default, false, false, false, DuplicateMode.Remove⟩ true "T"
    ⟨false, false, ⟨false, false, false, DuplicateMode.Remove⟩, true⟩ rfl

/-- A `findSome?` whose function is a guard is a `find?`. -/
theorem findSome?_guard {α : Type _} (p : α → Bool) (l : List α) :
    (l.findSome? fun a => if !p a then none else some a) = l.find? p := by
  induction l with
  | nil => rfl
  | cons x xs ih =>
      by_cases h : p x = true
      · simp [List.findSome?_cons, List.find?_cons, h]
      · simp only [Bool.not_eq_true] at h
        simp only [List.findSome?_cons, List.find?_cons, h]
        simpa using ih

/-- `resolveEngine` is the first candidate matched by `entryMatches`. -/
theorem resolveEngine_eq_find? (fs : FsPath → Bool)
    (source_path input_dir : FsPath) :
    resolveEngine fs source_path input_dir
      = (engineCandidates source_path input_dir).find? (entryMatches fs) := by
  unfold resolveEngine
  have hfun : ∀ e : EngineType × FsPath × Option FsPath,
      (!fs e.2.1 && (match e.2.2 with
        | none => true
        | some a => !fs a))
        = !entryMatches fs e := by
    intro e
    rcases e with ⟨et, sys, arc⟩
    rcases arc with _ | a <;> simp [entryMatches]
  simp only [hfun]
  exact findSome?_guard (entryMatches fs) _

/-- C3: engine resolution evaluates the fixed candidate list in the
priority New, VXAce, VX, XP; an entry matches when its system descriptor
or its archive path exists; the first match wins (in particular a VXAce
descriptor beats an XP archive), the archive path is `none` only for
`New`, and resolution fails when nothing matches. -/
theorem engine_resolution_first_match (fs : FsPath → Bool)
    (source_path input_dir : FsPath) :
    resolveEngine fs source_path input_dir
        = (engineCandidates source_path input_dir).find? (entryMatches fs)
    ∧ (fs (source_path ++ ["System.json"]) = false →
        fs (source_path ++ ["System.rvdata2"]) = true →
        fs (input_dir ++ ["Game.rgssad"]) = true →
        resolveEngine fs source_path input_dir
          = some (EngineType.VXAce, source_path ++ ["System.rvdata2"],
              some (input_dir ++ ["Game.rgss3a"])))
    ∧ (∀ et sys arc,
        resolveEngine fs source_path input_dir = some (et, sys, arc) →
        (arc = none ↔ et = EngineType.New))
    ∧ ((∀ e ∈ engineCandidates source_path input_dir,
          entryMatches fs e = false) →
        resolveEngine fs source_path input_dir = none) := by
  refine ⟨resolveEngine_eq_find? fs source_path input_dir,
    fun hjson hvx _hxp => ?_, fun et sys arc h => ?_, fun hnone => ?_⟩
  · rw [resolveEngine_eq_find?]
    simp [engineCandidates, List.find?_cons, entryMatches, hjson, hvx]
  · rw [resolveEngine_eq_find?] at h
    have hmem := List.mem_of_find?_eq_some h
    simp only [engineCandidates, List.mem_cons, List.mem_singleton,
      List.not_mem_nil, or_false] at hmem
    rcases hmem with h1 | h1 | h1 | h1 <;>
      · rcases Prod.mk.injEq .. ▸ h1 with ⟨he, hrest⟩
        rcases Prod.mk.injEq .. ▸ hrest with ⟨hs, ha⟩
        subst he
        subst ha
        simp
  · rw [resolveEngine_eq_find?]
    exact List.find?_eq_none.mpr fun e he => by simp [hnone e he]

/-- Witness for C3: a directory holding a VXAce descriptor and an XP
archive resolves to VXAce. -/
theorem engine_resolution_first_match_witness :
    resolveEngine
        (fun p => decide (p = ["src", "System.rvdata2"])
          || decide (p = ["in", "Game.rgssad"]))
        ["src"] ["in"]
      = some (EngineType.VXAce, ["src"] ++ ["System.rvdata2"],
          some (["in"] ++ ["Game.rgss3a"])) :=
  (engine_resolution_first_match
    (fun p => decide (p = ["src", "System.rvdata2"])
      || decide (p = ["in", "Game.rgssad"]))
    ["src"] ["in"]).2.1 (by decide) (by decide) (by decide)

/-- C2 counterexample: a concrete default-mode read writes the metadata
file strictly before the external read call (trace positions 1 and 2),
and a concrete append-mode read completes successfully without ever
persisting metadata — refuting both the "after the external read
returns successfully" and the "always after an incremental read"
parts of the claim. -/
theorem read_metadata_written_before_dispatch_cex :
    readRun
        ⟨true, false,
          ⟨ReadMode.Default, false, false, false, DuplicateMode.Remove⟩⟩
        "T"
        ⟨false, ⟨false, false, false, DuplicateMode.Remove⟩, false, false,
          false, true, "", true⟩
      = ([ReadEvent.createTranslationDir,
          ReadEvent.writeMetadata ⟨false, false, false, DuplicateMode.Remove⟩,
          ReadEvent.externalRead ⟨false, false, false, DuplicateMode.Remove⟩
            GameType.None],
         ReadResult.ok)
    ∧ metadataWritesBeforeFirstRead
        (readRun
          ⟨true, false,
            ⟨ReadMode.Default, false, false, false, DuplicateMode.Remove⟩⟩
          "T"
          ⟨false, ⟨false, false, false, DuplicateMode.Remove⟩, false, false,
            false, true, "", true⟩).1
      = [⟨false, false, false, DuplicateMode.Remove⟩]
    ∧ metadataWriteCount
        (readRun
          ⟨true, false,
            ⟨ReadMode.Append, false, false, false, DuplicateMode.Remove⟩⟩
          "T"
          ⟨true, ⟨false, false, false, DuplicateMode.Remove⟩, true, false,
            false, true, "", true⟩).1
      = 0
    ∧ (readRun
        ⟨true, false,
          ⟨ReadMode.Append, false, false, false, DuplicateMode.Remove⟩⟩
        "T"
        ⟨true, ⟨false, false, false, DuplicateMode.Remove⟩, true, false,
          false, true, "", true⟩).2
      = ReadResult.ok :=
  ⟨rfl, rfl, rfl, rfl⟩

/-- Total metadata writes distribute over trace concatenation. -/
theorem metadataWriteCount_append (l1 l2 : List ReadEvent) :
    metadataWriteCount (l1 ++ l2)
      = metadataWriteCount l1 + metadataWriteCount l2 := by
  induction l1 with
  | nil => simp [metadataWriteCount]
  | cons e rest ih => cases e <;> simp [metadataWriteCount, ih, Nat.add_assoc]

/-- C2 amended: metadata persistence in a read run happens in the
opposite phase to the one claimed — in non-incremental mode the resolved
record is written once, before the external read is ever invoked
(regardless of whether that read subsequently succeeds), and in append
mode no metadata is persisted at all. -/
theorem read_metadata_persistence_order (a : ReadArgs) (title : String)
    (w : ReadWorld) :
    (a.shared.read_mode = ReadMode.Append →
      metadataWriteCount (readRun a title w).1 = 0)
    ∧ (a.shared.read_mode ≠ ReadMode.Append →
        (readRun a title w).2 ≠ ReadResult.userAbort →
        metadataWritesBeforeFirstRead (readRun a title w).1
          = [resolveReadConfig a.shared (metaOf w)]) := by
  rcases a with ⟨silent, ignore, sh⟩
  rcases sh with ⟨rm, tr, ro, dcp, dm⟩
  rcases w with ⟨mfe, pm, ife, aps, sfe, ado, line, ero⟩
  constructor
  · intro hm
    simp only at hm
    subst hm
    simp only [readRun, readAfterPrompt, readDispatch]
    repeat' split
    all_goals simp_all [metadataWriteCount]
  · intro hm habort
    simp only at hm
    simp only [readRun, readAfterPrompt, readDispatch] at habort ⊢
    repeat' split
    all_goals simp_all [metadataWritesBeforeFirstRead]

/-- Witness for C2's amended theorem at concrete runs. -/
theorem read_metadata_persistence_order_witness :
    metadataWriteCount
        (readRun
          ⟨true, false,
            ⟨ReadMode.Append, false, false, false, DuplicateMode.Remove⟩⟩
          "T"
          ⟨true, ⟨false, false, false, DuplicateMode.Remove⟩, true, false,
            false, true, "", true⟩).1
      = 0
    ∧ metadataWritesBeforeFirstRead
        (readRun
          ⟨true, false,
            ⟨ReadMode.Force, false, false, false, DuplicateMode.Remove⟩⟩
          "T"
          ⟨false, ⟨false, false, false, DuplicateMode.Remove⟩, false, false,
            false, true, "", true⟩).1
      = [resolveReadConfig
          ⟨ReadMode.Force, false, false, false, DuplicateMode.Remove⟩
          (metaOf
            ⟨false, ⟨false, false, false, DuplicateMode.Remove⟩, false,
              false, false, true, "", true⟩)] :=
  ⟨(read_metadata_persistence_order
      ⟨true, false,
        ⟨ReadMode.Append, false, false, false, DuplicateMode.Remove⟩⟩
      "T"
      ⟨true, ⟨false, false, false, DuplicateMode.Remove⟩, true, false,
        false, true, "", true⟩).1 rfl,
   (read_metadata_persistence_order
      ⟨true, false,
        ⟨ReadMode.Force, false, false, false, DuplicateMode.Remove⟩⟩
      "T"
      ⟨false, ⟨false, false, false, DuplicateMode.Remove⟩, false, false,
        false, true, "", true⟩).2 (by decide) (by decide)⟩

/-- C8 (code bug): the confirmation gate itself behaves as claimed — a
declined prompt ends the run with a user abort and an event trace
containing no side effects — but the elapsed-time correction runs the
wrong way: `start_time -= start.elapsed()` moves the recorded start
backwards, so the reported duration equals the spec's
prompt-excluded duration plus twice the prompt wait, instead of
excluding the wait. -/
theorem force_prompt_wait_added_to_elapsed :
    forceReportedElapsed 0 1 3 5 = 7
    ∧ specElapsedExcludingPrompt 0 1 3 5 = 3
    ∧ forceReportedElapsed 0 1 3 5 ≠ specElapsedExcludingPrompt 0 1 3 5
    ∧ (∀ t0 tPromptStart tPromptEnd tEnd : Int,
        forceReportedElapsed t0 tPromptStart tPromptEnd tEnd
          = specElapsedExcludingPrompt t0 tPromptStart tPromptEnd tEnd
            + 2 * (tPromptEnd - tPromptStart))
    ∧ (∀ (a : ReadArgs) (title : String) (w : ReadWorld),
        a.shared.read_mode = ReadMode.Force → a.silent = false →
        rtrim w.stdinLine ≠ "Y" →
        readRun a title w = ([ReadEvent.promptWarning], ReadResult.userAbort)) := by
  refine ⟨by decide, by decide, by decide, fun t0 ts te tE => ?_,
    fun a title w hf hs hl => ?_⟩
  · unfold forceReportedElapsed specElapsedExcludingPrompt
    ring
  · simp [readRun, hf, hs, hl]

/-- Witness for C8: the declined-confirmation conjunct at a concrete
run. -/
theorem force_prompt_wait_added_to_elapsed_witness :
    readRun
        ⟨false, false,
          ⟨ReadMode.Force, false, false, false, DuplicateMode.Remove⟩⟩
        "T"
        ⟨false, ⟨false, false, false, DuplicateMode.Remove⟩, false, false,
          false, true, "n", true⟩
      = ([ReadEvent.promptWarning], ReadResult.userAbort) :=
  force_prompt_wait_added_to_elapsed.2.2.2.2
    ⟨false, false,
      ⟨ReadMode.Force, false, false, false, DuplicateMode.Remove⟩⟩
    "T"
    ⟨false, ⟨false, false, false, DuplicateMode.Remove⟩, false, false,
      false, true, "n", true⟩
    rfl rfl (by decide)

/-! ### RangeSpec parser lemmas -/

/-- A list is a prefix of itself under the boolean test. -/
theorem isPrefixList_self (l : List Char) : isPrefixList l l = true := by
  induction l with
  | nil => rfl
  | cons x xs ih => simp [isPrefixList, ih]

/-- A boolean prefix is a boolean infix. -/
theorem isInfixList_of_isPrefixList {p l : List Char}
    (h : isPrefixList p l = true) : isInfixList p l = true := by
  cases l with
  | nil => simpa [isInfixList] using h
  | cons x xs => simp [isInfixList, h]

/-- A suffix is a boolean infix. -/
theorem isInfixList_append_right (pre p : List Char) :
    isInfixList p (pre ++ p) = true := by
  induction pre with
  | nil => exact isInfixList_of_isPrefixList (isPrefixList_self p)
  | cons x xs ih => simp [isInfixList, ih]

/-- Splitting a separator-free list yields one piece. -/
theorem splitCharAux_no_sep (c : Char) :
    ∀ (l acc : List Char), c ∉ l →
      splitCharAux c l acc = [acc.reverse ++ l] := by
  intro l
  induction l with
  | nil => intro acc _; simp [splitCharAux]
  | cons x xs ih =>
      intro acc hm
      have hxc : ¬x = c := fun h => hm (h ▸ List.mem_cons_self x xs)
      rw [splitCharAux, if_neg hxc,
        ih (x :: acc) fun h => hm (List.mem_cons_of_mem x h)]
      simp

/-- Splitting a separator-free list yields the list itself. -/
theorem splitChar_no_sep {c : Char} {l : List Char} (h : c ∉ l) :
    splitChar c l = [l] := by
  unfold splitChar
  simpa using splitCharAux_no_sep c l [] h

/-- Splitting a list with exactly one separator yields the two sides. -/
theorem splitCharAux_one_sep (c : Char) :
    ∀ (la lb acc : List Char), c ∉ la → c ∉ lb →
      splitCharAux c (la ++ c :: lb) acc = [acc.reverse ++ la, lb] := by
  intro la
  induction la with
  | nil =>
      intro lb acc _ hb
      rw [List.nil_append, splitCharAux, if_pos rfl,
        splitCharAux_no_sep c lb [] hb]
      simp
  | cons x xs ih =>
      intro lb acc ha hb
      have hxc : ¬x = c := fun h => ha (h ▸ List.mem_cons_self x xs)
      rw [List.cons_append, splitCharAux, if_neg hxc,
        ih lb (x :: acc) (fun h => ha (List.mem_cons_of_mem x h)) hb]
      simp

/-- `splitChar` on a list with exactly one separator occurrence. -/
theorem splitChar_one_sep {c : Char} {la lb : List Char}
    (ha : c ∉ la) (hb : c ∉ lb) :
    splitChar c (la ++ c :: lb) = [la, lb] := by
  unfold splitChar
  simpa using splitCharAux_one_sep c la lb [] ha hb

/-- A successful decimal parse implies the token is a nonempty digit
string. -/
theorem parseDecimal_some {l : List Char} {n : Nat}
    (h : parseDecimal l = some n) :
    l ≠ [] ∧ l.all Char.isDigit = true := by
  unfold parseDecimal at h
  split at h
  · next hc => exact hc
  · exact absurd h (by simp)

/-- A digit string contains no dash. -/
theorem not_dash_of_digits {l : List Char}
    (h : l.all Char.isDigit = true) : '-' ∉ l := by
  intro hm
  have hd := List.all_eq_true.mp h _ hm
  exact absurd hd (by decide)

/-- A bare-integer token parses to its own value. -/
theorem parseTok_single {raw : List Char} {n : Nat}
    (h : parseDecimal (trimChars raw) = some n) :
    parseTok raw = Except.ok [n] := by
  obtain ⟨hne, hall⟩ := parseDecimal_some h
  simp [parseTok, hne, splitChar_no_sep (not_dash_of_digits hall), h]

/-- A well-ordered `start-end` token parses to the flattened inclusive
range. -/
theorem parseTok_range_le {raw la lb : List Char} {a b : Nat}
    (ht : trimChars raw = la ++ '-' :: lb)
    (hpa : parseDecimal la = some a) (hpb : parseDecimal lb = some b)
    (hab : a ≤ b) :
    parseTok raw = Except.ok (rangeListIncl a b) := by
  obtain ⟨_, haa⟩ := parseDecimal_some hpa
  obtain ⟨_, hbb⟩ := parseDecimal_some hpb
  have hne : trimChars raw ≠ [] := by rw [ht]; simp
  have hsplit : splitChar '-' (trimChars raw) = [la, lb] := by
    rw [ht]
    exact splitChar_one_sep (not_dash_of_digits haa)
      (not_dash_of_digits hbb)
  have hnotlt : ¬b < a := Nat.not_lt.mpr hab
  simp [parseTok, hne, hsplit, hpa, hpb, hnotlt]

/-- A reversed `start-end` token fails with the reversed-range error. -/
theorem parseTok_range_reversed {raw la lb : List Char} {a b : Nat}
    (ht : trimChars raw = la ++ '-' :: lb)
    (hpa : parseDecimal la = some a) (hpb : parseDecimal lb = some b)
    (hba : b < a) :
    parseTok raw = Except.error (reversedRangeErr raw) := by
  obtain ⟨_, haa⟩ := parseDecimal_some hpa
  obtain ⟨_, hbb⟩ := parseDecimal_some hpb
  have hne : trimChars raw ≠ [] := by rw [ht]; simp
  have hsplit : splitChar '-' (trimChars raw) = [la, lb] := by
    rw [ht]
    exact splitChar_one_sep (not_dash_of_digits haa)
      (not_dash_of_digits hbb)
  simp [parseTok, hne, hsplit, hpa, hpb, hba]

/-- Token-list parsing concatenates the token values in appearance
order. -/
theorem parseTokens_ok_of_forall₂ {toks : List (List Char)}
    {vals : List (List Nat)}
    (h : List.Forall₂ (fun t v => parseTok t = Except.ok v) toks vals) :
    parseTokens toks = Except.ok vals.flatten := by
  induction h with
  | nil => rfl
  | cons h1 _ ih => simp [parseTokens, h1, ih]

/-- The first failing token's error aborts the whole parse. -/
theorem parseTokens_error_append :
    ∀ (pre : List (List Char)) (raw : List Char)
      (rest : List (List Char)) (e : String),
      (∀ t ∈ pre, ∃ v, parseTok t = Except.ok v) →
      parseTok raw = Except.error e →
      parseTokens (pre ++ raw :: rest) = Except.error e := by
  intro pre
  induction pre with
  | nil =>
      intro raw rest e _ he
      simp [parseTokens, he]
  | cons t ts ih =>
      intro raw rest e hok he
      obtain ⟨v, hv⟩ := hok t (by simp)
      have htail := ih raw rest e (fun t' ht' => hok t' (by simp [ht'])) he
      simp [parseTokens, hv, htail]

/-- C9: for every well-formed comma-separated range string the parser
yields the in-appearance-order singles and flattened inclusive ranges
(`"2,4-6"` gives `[2, 4, 5, 6]`), and every `start-end` token with
`start > end` makes the parse fail with an error containing the
original token. -/
theorem range_spec_parse_correct :
    (∀ (toks : List (List Char)) (vals : List (List Nat)),
        List.Forall₂ (fun t v => parseTok t = Except.ok v) toks vals →
        parseTokens toks = Except.ok vals.flatten)
    ∧ (∀ (raw : List Char) (n : Nat),
        parseDecimal (trimChars raw) = some n →
        parseTok raw = Except.ok [n])
    ∧ (∀ (raw la lb : List Char) (a b : Nat),
        trimChars raw = la ++ '-' :: lb →
        parseDecimal la = some a → parseDecimal lb = some b → a ≤ b →
        parseTok raw = Except.ok (rangeListIncl a b))
    ∧ parseRangeList "2,4-6" = Except.ok [2, 4, 5, 6]
    ∧ (∀ (pre : List (List Char)) (raw : List Char)
          (rest : List (List Char)) (la lb : List Char) (a b : Nat),
        (∀ t ∈ pre, ∃ v, parseTok t = Except.ok v) →
        trimChars raw = la ++ '-' :: lb →
        parseDecimal la = some a → parseDecimal lb = some b → b < a →
        parseTokens (pre ++ raw :: rest)
            = Except.error (reversedRangeErr raw)
          ∧ strContains (reversedRangeErr raw) (String.mk raw) = true) := by
  refine ⟨fun toks vals h => parseTokens_ok_of_forall₂ h,
    fun raw n h => parseTok_single h,
    fun raw la lb a b ht hpa hpb hab =>
      parseTok_range_le ht hpa hpb hab,
    rfl,
    fun pre raw rest la lb a b hok ht hpa hpb hba => ?_⟩
  refine ⟨parseTokens_error_append pre raw rest _ hok
      (parseTok_range_reversed ht hpa hpb hba), ?_⟩
  simpa [strContains, reversedRangeErr] using
    isInfixList_append_right
      ("Range start is greater than range end in token: ").data raw

/-- Witness for C9: the reversed-range conjunct at the token `"7-3"`. -/
theorem range_spec_parse_correct_witness :
    parseTokens [['7', '-', '3']]
        = Except.error (reversedRangeErr ['7', '-', '3'])
    ∧ strContains (reversedRangeErr ['7', '-', '3'])
        (String.mk ['7', '-', '3']) = true :=
  range_spec_parse_correct.2.2.2.2 [] ['7', '-', '3'] [] ['7'] ['3'] 7 3
    (by simp) (by decide) (by decide) (by decide) (by decide)

end Rvpacker
